import Mathlib

/-!
Shallow embedding of the sales-analysis application (`app.py`): the Excel
ingestion/aggregation step (`process_excel_data`), the reconciliation step
(`analyze_sales_data`), the filter pipeline and the summary-metric block,
together with theorems settling the specification claims.

Numeric cells are modelled as exact rationals (`ℚ`); the pandas notion of a
missing value (`NaN`) and of a non-coercible object cell are explicit
constructors.  String-to-number coercion (`pd.to_numeric` on a text cell) is
abstracted as an explicit `parse` parameter: a cell parses to a rational or
fails, which is all the downstream logic observes.
-/

namespace SalesApp

/-- A cell of an Excel-derived pandas column: a numeric value, a missing value
(`NaN`), a text cell, or a non-scalar object on which `pd.to_numeric` raises
even with `errors='coerce'`. -/
inductive RawCell where
  | num (q : ℚ)
  | nan
  | str (s : String)
  | obj
deriving DecidableEq

/-- Cell makes the column dtype `object` (text or non-scalar). -/
def RawCell.isStrLike : RawCell → Bool
  | .str _ => true
  | .obj => true
  | _ => false

/-- Cell is the pandas missing value. -/
def RawCell.isNan : RawCell → Bool
  | .nan => true
  | _ => false

/-- Cell is a non-scalar object (raises under `pd.to_numeric`). -/
def RawCell.isObj : RawCell → Bool
  | .obj => true
  | _ => false

/-- Cell is an actual numeric value. -/
def RawCell.isNum : RawCell → Bool
  | .num _ => true
  | _ => false

/-- Contribution of a cell to a `groupby(...).sum()` (pandas sums with
`skipna=True`, so a missing value contributes 0). -/
def RawCell.toQ : RawCell → ℚ
  | .num q => q
  | _ => 0

/-- Per-cell behaviour of `pd.to_numeric(col, errors='coerce')`: numeric and
missing cells pass through, a text cell becomes its parsed value or `NaN`. -/
def coerceCell (parse : String → Option ℚ) : RawCell → RawCell
  | .str s =>
    match parse s with
    | some q => .num q
    | none => .nan
  | c => c

/-- One row of an uploaded Excel sheet, restricted to the columns the core
logic reads: the customer key `得意先`, the amount `受注額` and the optional
profit `粗利益(B-L)`. -/
structure RawRow where
  customer : String
  amount : RawCell
  profit : RawCell
deriving DecidableEq

/-- An uploaded sheet: which of the relevant columns are present, plus the
rows.  The `profit` field of a row is only meaningful when `hasProfit`. -/
structure RawTable where
  hasCustomer : Bool
  hasAmount : Bool
  hasProfit : Bool
  rows : List RawRow
deriving DecidableEq

/-- One row of a per-customer aggregate (`result_df` in `process_excel_data`,
columns renamed to `顧客名`/`売上金額`).  `profit` is meaningful only when the
table's `hasProfit` flag is set, and is 0 otherwise. -/
structure AggRow where
  customer : String
  amount : ℚ
  profit : ℚ
deriving DecidableEq

/-- A per-customer aggregate table: output of `process_excel_data`. -/
structure AggTable where
  hasProfit : Bool
  rows : List AggRow
deriving DecidableEq

/-- Distinct customers of a raw row list (the group keys of
`df.groupby('得意先')`; group order is irrelevant to every claim). -/
def customersOf (rows : List RawRow) : List String :=
  (rows.map (·.customer)).dedup

/-- Sum of a cell-valued field over a customer's rows
(`df.groupby('得意先')[col].sum()`, `skipna` summation). -/
def groupSum (rows : List RawRow) (f : RawRow → RawCell) (c : String) : ℚ :=
  (((rows.filter (fun r => r.customer == c)).map f).map RawCell.toQ).sum

/-- The amount column's dtype is `object` (some cell is text or non-scalar). -/
def amountObjectDtype (rows : List RawRow) : Bool :=
  rows.any (fun r => r.amount.isStrLike)

/-- `pd.to_numeric` on the amount column raises even with `errors='coerce'`
(some non-scalar cell). -/
def amountCoercionRaises (rows : List RawRow) : Bool :=
  rows.any (fun r => r.amount.isObj)

/-- The profit column's dtype is `object`. -/
def profitObjectDtype (rows : List RawRow) : Bool :=
  rows.any (fun r => r.profit.isStrLike)

/-- `pd.to_numeric` on the profit column raises even with `errors='coerce'`. -/
def profitCoercionRaises (rows : List RawRow) : Bool :=
  rows.any (fun r => r.profit.isObj)

/-- Rows actually fed to the aggregation, after the amount-column handling of
`process_excel_data` (lines 63-70 of `app.py`): when the amount column has
`object` dtype it is coerced per cell and rows whose amount ended up missing
are dropped (`dropna(subset=['受注額'])`); a column that is already numeric is
left untouched, missing values included. -/
def processedRows (parse : String → Option ℚ) (rows : List RawRow) : List RawRow :=
  if amountObjectDtype rows then
    (rows.map (fun r => { r with amount := coerceCell parse r.amount })).filter
      (fun r => !r.amount.isNan)
  else rows

/-- Grouped-and-summed aggregate of the retained rows, including the
gross-profit policy of lines 76-85 of `app.py`: if the profit column is
present and has `object` dtype, it is coerced as a whole; if that coercion
raises, the column keeps its `object` dtype and profit aggregation is skipped
for the table (the inner bare `except` shows a warning and moves on), and
otherwise the per-customer profit sums are left-merged onto the amount sums.
The left merge keys both frames by the same customers, so it is the map that
attaches each customer's profit sum. -/
def mkAgg (hasProfit : Bool) (parse : String → Option ℚ) (rows : List RawRow) :
    AggTable :=
  if hasProfit then
    if profitObjectDtype rows && profitCoercionRaises rows then
      ⟨false, (customersOf rows).map (fun c => ⟨c, groupSum rows (·.amount) c, 0⟩)⟩
    else
      let rows2 :=
        if profitObjectDtype rows then
          rows.map (fun r => { r with profit := coerceCell parse r.profit })
        else rows
      ⟨true, (customersOf rows).map
        (fun c => ⟨c, groupSum rows (·.amount) c, groupSum rows2 (·.profit) c⟩)⟩
  else
    ⟨false, (customersOf rows).map (fun c => ⟨c, groupSum rows (·.amount) c, 0⟩)⟩

/-- Outcome of the body of `process_excel_data` (the code inside its outer
`try`): a produced aggregate, an explicit `return None` (missing required
columns, or the inner `except` of the amount coercion), or an exception that
reaches the outer `except Exception` handler (a failing `pd.read_excel`,
modelled as an `Except.error` input). -/
inductive BodyOutcome where
  | ok (t : AggTable)
  | returnedNone
  | raised
deriving DecidableEq

/-- Body of `process_excel_data` (lines 44-90 of `app.py`).  The input is the
result of `pd.read_excel`: either a parsed table or a raised parse error. -/
def process_body (parse : String → Option ℚ) :
    Except String RawTable → BodyOutcome
  | .error _ => .raised
  | .ok df =>
    if !(df.hasCustomer && df.hasAmount) then .returnedNone
    else if amountObjectDtype df.rows then
      if amountCoercionRaises df.rows then .returnedNone
      else .ok (mkAgg df.hasProfit parse (processedRows parse df.rows))
    else .ok (mkAgg df.hasProfit parse (processedRows parse df.rows))

/-- The function `process_excel_data` of `app.py`: its body wrapped in
`try/except`, every non-`ok` outcome surfacing as `None`. -/
def process_excel_data (parse : String → Option ℚ)
    (input : Except String RawTable) : Option AggTable :=
  match process_body parse input with
  | .ok t => some t
  | .returnedNone => none
  | .raised => none

/-! ## Period reconciler (`analyze_sales_data`) -/

/-- A value of the ratio column `増減率`: either a percentage or the string
sentinel written by
`merged_df['増減率'].replace([np.inf, -np.inf], '新規/完全減少')`.  The column
is type-heterogeneous in pandas (floats and strings); the two constructors
model the two runtime types. -/
inductive RatioCell where
  | pct (q : ℚ)
  | sentinel (tag : String)
deriving DecidableEq

/-- A row of the outer merge (line 102 of `app.py`) before `fillna(0)`: a
side a customer is absent from contributes missing values (`none` = `NaN`).
The customer key itself is an `Option` because the pandas column can hold a
missing value, though the merge of two aggregates never produces one. -/
structure PreRow where
  customer : Option String
  priorAmount : Option ℚ
  currentAmount : Option ℚ
  priorProfit : Option ℚ
  currentProfit : Option ℚ
deriving DecidableEq

/-- A row of the reconciled table after `fillna(0)` and the computation of
`増減額` and `増減率` (lines 105-118), and also after the rounding pass — the
row type is unchanged by rounding. -/
structure MergedRow where
  customer : Option String
  priorAmount : ℚ
  currentAmount : ℚ
  priorProfit : ℚ
  currentProfit : ℚ
  delta : ℚ
  ratio : RatioCell
deriving DecidableEq

/-- Lookup of a customer's aggregate row (the hash join underlying
`pd.merge(..., on='顧客名')`). -/
def findRow (t : AggTable) (c : String) : Option AggRow :=
  t.rows.find? (fun r => r.customer == c)

/-- Keys of an aggregate table (`顧客名` column). -/
def keys (t : AggTable) : List String :=
  t.rows.map (·.customer)

/-- A well-formed `CustomerAggregate` table: the key column is unique, as
`groupby` guarantees for the tables `process_excel_data` produces. -/
def uniqueKeys (t : AggTable) : Prop :=
  (t.rows.map (·.customer)).Nodup

instance (t : AggTable) : Decidable (uniqueKeys t) :=
  List.nodupDecidable _

/-- A customer's aggregate amount, 0 for a customer absent from the table. -/
def amountOf (t : AggTable) (c : String) : ℚ :=
  ((findRow t c).map (·.amount)).getD 0

/-- A customer's aggregate profit, 0 for a customer absent from the table. -/
def profitOf (t : AggTable) (c : String) : ℚ :=
  ((findRow t c).map (·.profit)).getD 0

/-- A merged row coming from the left (prior) table: the current-period
fields are present exactly when the customer also appears on the right. -/
def mergeLeftRow (current : AggTable) (p : AggRow) : PreRow :=
  match findRow current p.customer with
  | some q => ⟨some p.customer, some p.amount, some q.amount,
               some p.profit, some q.profit⟩
  | none => ⟨some p.customer, some p.amount, none, some p.profit, none⟩

/-- A merged row coming from the right (current) table only: all
prior-period fields are missing. -/
def mergeRightRow (q : AggRow) : PreRow :=
  ⟨some q.customer, none, some q.amount, none, some q.profit⟩

/-- The full outer join of line 102: every left row, matched against the
right table where possible, followed by the unmatched right rows.  Numeric
fields absent from one side are `NaN` (`none`). -/
def outer_merge (prior current : AggTable) : List PreRow :=
  prior.rows.map (mergeLeftRow current)
  ++ (current.rows.filter (fun q => (findRow prior q.customer).isNone)).map
      mergeRightRow

/-- The sentinel literal substituted for an infinite ratio. -/
def sentinelTag : String := "新規/完全減少"

/-- `fillna(0)` followed by the `増減額` and `増減率` computations of lines
105-118: missing numeric fields become 0; the ratio is
`(delta / prior) * 100` when the prior amount is nonzero, and otherwise
`np.inf`, which the subsequent `replace` turns into the string sentinel. -/
def computeRow (p : PreRow) : MergedRow :=
  let prior := p.priorAmount.getD 0
  let current := p.currentAmount.getD 0
  let delta := current - prior
  { customer := p.customer
    priorAmount := prior
    currentAmount := current
    priorProfit := p.priorProfit.getD 0
    currentProfit := p.currentProfit.getD 0
    delta := delta
    ratio :=
      if prior ≠ 0 then .pct (delta / prior * 100) else .sentinel sentinelTag }

/-- Round half to even (the rounding of `Series.round(0)`, IEEE
round-to-nearest-ties-to-even), as an integer. -/
def roundHalfEven (q : ℚ) : ℤ :=
  if q - (⌊q⌋ : ℚ) < 1 / 2 then ⌊q⌋
  else if 1 / 2 < q - (⌊q⌋ : ℚ) then ⌊q⌋ + 1
  else if Even ⌊q⌋ then ⌊q⌋ else ⌊q⌋ + 1

/-- The rounding pass of lines 121-123: every column of numeric dtype is
rounded to an integer.  The amount, profit and delta columns are always
numeric; the ratio column is numeric exactly when no row received the string
sentinel (`ratioNumeric`), in which case its percentages are rounded too —
when a sentinel is present the column's dtype is `object`, it is skipped by
`select_dtypes`, and even its numeric entries stay exact. -/
def roundRow (ratioNumeric : Bool) (m : MergedRow) : MergedRow :=
  { m with
    priorAmount := (roundHalfEven m.priorAmount : ℚ)
    currentAmount := (roundHalfEven m.currentAmount : ℚ)
    priorProfit := (roundHalfEven m.priorProfit : ℚ)
    currentProfit := (roundHalfEven m.currentProfit : ℚ)
    delta := (roundHalfEven m.delta : ℚ)
    ratio :=
      if ratioNumeric then
        match m.ratio with
        | .pct q => .pct ((roundHalfEven q : ℚ))
        | s => s
      else m.ratio }

/-- The ratio column keeps a numeric dtype: no row was given the string
sentinel, i.e. every row's (zero-filled, pre-rounding) prior amount is
nonzero. -/
def ratioNumericFlag (prior current : AggTable) : Bool :=
  ((outer_merge prior current).map computeRow).all
    (fun m => !(m.priorAmount == 0))

/-- The rows of the reconciled table before the final sort: merge, zero-fill,
delta/ratio computation and rounding. -/
def reconciledRows (prior current : AggTable) : List MergedRow :=
  ((outer_merge prior current).map computeRow).map
    (roundRow (ratioNumericFlag prior current))

/-- The function `analyze_sales_data` of `app.py`.  On an empty merge the
rounding loop of line 122 evaluates `merged_df['増減率'].iloc[0]`, which
raises `IndexError` (the ratio column of an empty merge keeps a numeric
dtype), so no table is produced: the result is `none` exactly when both
inputs are empty.  The final sort of line 126 is `sort_values` descending on
`売上金額_今年`; it is modelled as an insertion sort on that key, which fixes
one deterministic tie order, whereas the library call leaves `kind` at its
default `quicksort`, whose tie order is unspecified (not stable).  No theorem
below depends on the order of tied rows, only on the sorted list being a
permutation of the reconciled rows. -/
def analyze_sales_data (prior current : AggTable) : Option (List MergedRow) :=
  if (outer_merge prior current).isEmpty then none
  else
    some (List.insertionSort
      (fun a b => b.currentAmount ≤ a.currentAmount)
      (reconciledRows prior current))

/-! ## Query filter (lines 172-188) and summary metrics (lines 194-212) -/

/-- The change filter selector `増減フィルター`:
`すべて表示` / `増加のみ` / `減少のみ`. -/
inductive ChangeMode where
  | all
  | increaseOnly
  | decreaseOnly
deriving DecidableEq

/-- One configuration of the three filter widgets. -/
structure FilterConfig where
  lo : ℚ
  hi : ℚ
  mode : ChangeMode
  searchTerm : String
deriving DecidableEq

/-- Characters to which Python's regular-expression language assigns special
meaning (the `re` module's metacharacters: `. ^ $ * + ? { } [ ] \ | ( )`). -/
def regexMetachars : List Char :=
  ['.', '^', '$', '*', '+', '?', '\x7b', '\x7d', '[', ']', '\\', '|',
   '(', ')']

/-- Membership of a character in the metacharacter list. -/
def isMetachar (ch : Char) : Bool :=
  regexMetachars.contains ch

/-- Python's `re.search` with `re.IGNORECASE`, restricted to the pattern
fragment of literal characters and the metacharacter `.` (any character) —
the fragment needed to state the claims about
`str.contains(search_term, case=False, na=False)`, whose default is
`regex=True`.  The other metacharacters of `regexMetachars` are *not*
modelled (they would be treated as literals here, which Python does not do),
so every theorem below that evaluates a pattern through this model carries a
hypothesis confining the pattern to this fragment.  `reMatchAt` matches the
pattern against a prefix of the text; case folding is per-character
`toLower`. -/
def reMatchAt : List Char → List Char → Bool
  | [], _ => true
  | _ :: _, [] => false
  | p :: ps, c :: cs => (p == '.' || p.toLower == c.toLower) && reMatchAt ps cs

/-- Search for a match of the pattern at any position of the text
(`re.search` semantics, within the same pattern fragment as `reMatchAt`). -/
def reSearchList (pat : List Char) : List Char → Bool
  | [] => reMatchAt pat []
  | c :: cs => reMatchAt pat (c :: cs) || reSearchList pat cs

/-- String-level entry point of the search predicate, inheriting
`reMatchAt`'s pattern fragment (literals and `.`). -/
def reSearch (pat s : String) : Bool :=
  reSearchList pat.toList s.toList

/-- The range filter of lines 175-178: inclusive on `売上金額_今年`. -/
def rangeMask (cfg : FilterConfig) (m : MergedRow) : Bool :=
  decide (cfg.lo ≤ m.currentAmount) && decide (m.currentAmount ≤ cfg.hi)

/-- The change filter of lines 181-184 on the sign of `増減額`. -/
def changeMask (mode : ChangeMode) (m : MergedRow) : Bool :=
  match mode with
  | .all => true
  | .increaseOnly => decide (0 < m.delta)
  | .decreaseOnly => decide (m.delta < 0)

/-- The search filter of line 188:
`str.contains(search_term, case=False, na=False)` — a missing customer name
never matches (`na=False`), otherwise a case-insensitive regex search. -/
def searchMask (term : String) (m : MergedRow) : Bool :=
  match m.customer with
  | none => false
  | some s => reSearch term s

/-- The search-filter stage of lines 187-188: applied only when the term is
non-empty, since an empty string is falsy at line 187. -/
def search_stage (term : String) (rows : List MergedRow) : List MergedRow :=
  if term.isEmpty then rows else rows.filter (searchMask term)

/-- The filtering block of lines 172-188, applied in program order: range
filter, then change filter, then the search stage.  It operates on a copy
(`comparison_df.copy()`), so the source table is untouched. -/
def apply_filters (cfg : FilterConfig) (rows : List MergedRow) :
    List MergedRow :=
  let f1 := rows.filter (rangeMask cfg)
  let f2 :=
    match cfg.mode with
    | .all => f1
    | .increaseOnly => f1.filter (fun m => decide (0 < m.delta))
    | .decreaseOnly => f1.filter (fun m => decide (m.delta < 0))
  search_stage cfg.searchTerm f2

/-- The summary sentinel literal shown when the ratio is not computed. -/
def summarySentinel : String := "計算不能"

/-- The four summary metrics of lines 198-212. -/
structure SummaryMetrics where
  priorTotal : ℚ
  currentTotal : ℚ
  totalDelta : ℚ
  totalDeltaRatio : RatioCell
deriving DecidableEq

/-- The summary block of lines 198-212: column sums over a reconciled table,
and the total ratio, which the code computes only under
`売上金額_前年.sum() > 0` — otherwise it displays `計算不能`. -/
def summarize (rows : List MergedRow) : SummaryMetrics :=
  let pt := (rows.map (·.priorAmount)).sum
  let ct := (rows.map (·.currentAmount)).sum
  let td := (rows.map (·.delta)).sum
  { priorTotal := pt
    currentTotal := ct
    totalDelta := td
    totalDeltaRatio :=
      if 0 < pt then .pct (td / pt * 100) else .sentinel summarySentinel }

/-- The result screen, as far as the claims are concerned: the filtered view
(built from the session's comparison table and the widget state) and the
summary metrics, which the code computes from
`st.session_state.comparison_df` — the full table — not from `filtered_df`. -/
def display_step (rows : List MergedRow) (cfg : FilterConfig) :
    List MergedRow × SummaryMetrics :=
  (apply_filters cfg rows, summarize rows)

/-! ## Claim-side definitions

The spec describes the search predicate as *substring containment*, not as a
regular-expression search.  The following definitions formalise the spec's
words, to be compared against the code's `reSearch` above. -/

/-- Spec-side: the needle is a case-insensitive prefix of the haystack. -/
def specPrefixMatch : List Char → List Char → Bool
  | [], _ => true
  | _ :: _, [] => false
  | a :: as, b :: bs => (a.toLower == b.toLower) && specPrefixMatch as bs

/-- Spec-side: the needle occurs, case-insensitively, somewhere in the
haystack. -/
def specContains (pat : List Char) : List Char → Bool
  | [] => specPrefixMatch pat []
  | c :: cs => specPrefixMatch pat (c :: cs) || specContains pat cs

/-- Spec-side: `term` is a case-insensitive substring of `s`. -/
def specSubstring (term s : String) : Bool :=
  specContains term.toList s.toList

/-- The search filter as the claim states it: keep exactly the rows whose
customer name contains the term as a case-insensitive substring; an empty
term keeps every row; a missing name never matches. -/
def claimSubstringFilter (term : String) (rows : List MergedRow) :
    List MergedRow :=
  if term.isEmpty then rows
  else
    rows.filter (fun m =>
      match m.customer with
      | none => false
      | some s => specSubstring term s)

/-! ## Concrete tables used by witnesses and counterexamples -/

/-- A parse function for witnesses: no text cell parses as a number. -/
def parseNone : String → Option ℚ := fun _ => none

/-- The spec's worked example, prior period: `{A:100, B:200}`. -/
def Pex : AggTable := ⟨false, [⟨"A", 100, 0⟩, ⟨"B", 200, 0⟩]⟩

/-- The spec's worked example, current period: `{A:150, C:50}`. -/
def Cex : AggTable := ⟨false, [⟨"A", 150, 0⟩, ⟨"C", 50, 0⟩]⟩

/-- Prior table `{A:3}`: every prior amount nonzero, ratio `100/3`. -/
def Pthird : AggTable := ⟨false, [⟨"A", 3, 0⟩]⟩

/-- Current table `{A:4}` paired with `Pthird`. -/
def Cthird : AggTable := ⟨false, [⟨"A", 4, 0⟩]⟩

/-- Prior table `{A:-1}`: a negative prior total. -/
def Pneg : AggTable := ⟨false, [⟨"A", -1, 0⟩]⟩

/-- Current table `{A:-1}` paired with `Pneg`. -/
def Cneg : AggTable := ⟨false, [⟨"A", -1, 0⟩]⟩

/-- A raw sheet whose amount column is already numeric and holds a single
missing value — the ingestion's numeric-dtype path never drops that row. -/
def TnanAmount : RawTable := ⟨true, true, false, [⟨"A", .nan, .nan⟩]⟩

/-- A raw sheet with a numeric amount column and a profit column containing
a non-scalar object, on which the whole-column profit coercion raises. -/
def TobjProfit : RawTable := ⟨true, true, true, [⟨"A", .num 1, .obj⟩]⟩

/-- A reconciled row named `abc`, for the search-filter counterexample. -/
def rowABC : MergedRow := ⟨some "abc", 0, 0, 0, 0, 0, .pct 0⟩

/-- A filter configuration whose only active predicate is the search term
`a.c` (range `[0,0]` holds `rowABC`, change mode keeps everything). -/
def cfgDotSearch : FilterConfig := ⟨0, 0, .all, "a.c"⟩

/-! ## Plumbing lemmas -/

theorem find_of_mem_nodup {rows : List AggRow}
    (h : (rows.map (·.customer)).Nodup) {r : AggRow} (hr : r ∈ rows) :
    rows.find? (fun x => x.customer == r.customer) = some r := by
  induction rows with
  | nil => cases hr
  | cons a t ih =>
    rw [List.map_cons, List.nodup_cons] at h
    rcases List.mem_cons.mp hr with rfl | hrt
    · exact List.find?_cons_of_pos _ (by simp)
    · have hne : ¬(a.customer == r.customer) = true := by
        simp only [beq_iff_eq]
        intro he
        exact h.1 (he ▸ List.mem_map_of_mem (·.customer) hrt)
      rw [List.find?_cons_of_neg (p := fun x : AggRow => x.customer == r.customer) _ hne]
      exact ih h.2 hrt

theorem findRow_eq_some {t : AggTable} (h : uniqueKeys t) {r : AggRow}
    (hr : r ∈ t.rows) : findRow t r.customer = some r :=
  find_of_mem_nodup h hr

theorem findRow_eq_none {t : AggTable} {c : String} (h : c ∉ keys t) :
    findRow t c = none := by
  rw [findRow, List.find?_eq_none]
  intro x hx hbeq
  exact h (beq_iff_eq.mp hbeq ▸ List.mem_map_of_mem (·.customer) hx)

theorem findRow_isSome_of_mem {t : AggTable} {c : String} (h : c ∈ keys t) :
    (findRow t c).isSome = true := by
  rcases List.mem_map.mp h with ⟨r, hr, rfl⟩
  rw [findRow, List.find?_isSome]
  exact ⟨r, hr, by simp⟩

theorem length_filter_map {α β : Type} (f : α → β) (p : β → Bool)
    (l : List α) :
    ((l.map f).filter p).length = (l.filter (fun x => p (f x))).length := by
  induction l with
  | nil => rfl
  | cons a t ih => by_cases h : p (f a) <;> simp [h, ih]

theorem length_filter_key {rows : List AggRow}
    (h : (rows.map (·.customer)).Nodup) (c : String) :
    (rows.filter (fun x => x.customer == c)).length =
      if c ∈ rows.map (·.customer) then 1 else 0 := by
  induction rows with
  | nil => simp
  | cons a t ih =>
    rw [List.map_cons, List.nodup_cons] at h
    by_cases hac : a.customer = c
    · subst hac
      have hnot : a.customer ∉ t.map (·.customer) := h.1
      rw [List.filter_cons_of_pos (by simp)]
      simp only [List.length_cons, ih h.2, List.map_cons]
      rw [if_neg hnot, if_pos (List.mem_cons_self _ _)]
    · rw [List.filter_cons_of_neg (by simpa using hac)]
      rw [ih h.2, List.map_cons]
      by_cases hct : c ∈ t.map (·.customer)
      · rw [if_pos hct, if_pos (List.mem_cons_of_mem _ hct)]
      · rw [if_neg hct, if_neg (by
          intro hmem
          rcases List.mem_cons.mp hmem with he | hm
          · exact hac he.symm
          · exact hct hm)]

theorem length_filter_key_table {t : AggTable} (h : uniqueKeys t)
    (c : String) :
    (t.rows.filter (fun x => x.customer == c)).length =
      if c ∈ keys t then 1 else 0 :=
  length_filter_key h c

theorem mergeLeftRow_customer (current : AggTable) (p : AggRow) :
    (mergeLeftRow current p).customer = some p.customer := by
  unfold mergeLeftRow
  cases findRow current p.customer <;> rfl

theorem outer_merge_filter_length {prior current : AggTable}
    (hp : uniqueKeys prior) (hc : uniqueKeys current) {c : String}
    (h : c ∈ keys prior ∨ c ∈ keys current) :
    ((outer_merge prior current).filter
      (fun r => r.customer == some c)).length = 1 := by
  unfold outer_merge
  rw [List.filter_append, List.length_append, length_filter_map,
    length_filter_map]
  have hleftpred : ∀ x : AggRow,
      ((mergeLeftRow current x).customer == some c) = (x.customer == c) := by
    intro x
    rw [mergeLeftRow_customer]
    by_cases hxc : x.customer = c <;> simp [hxc]
  have hrightpred : ∀ x : AggRow,
      ((mergeRightRow x).customer == some c) = (x.customer == c) := by
    intro x
    by_cases hxc : x.customer = c <;> simp [mergeRightRow, hxc]
  simp only [hleftpred, hrightpred]
  rw [List.filter_filter, length_filter_key_table hp c]
  by_cases hmem : c ∈ keys prior
  · rw [if_pos hmem]
    have hzero : (current.rows.filter
        (fun a => (a.customer == c) && (findRow prior a.customer).isNone)).length = 0 := by
      rw [List.length_eq_zero, List.filter_eq_nil_iff]
      intro a _ hconj
      rcases (Bool.and_eq_true _ _).mp hconj with ⟨hbeq, hnone⟩
      have hac : a.customer = c := beq_iff_eq.mp hbeq
      rw [hac] at hnone
      rw [Option.isNone_iff_eq_none] at hnone
      have := findRow_isSome_of_mem hmem
      rw [hnone] at this
      cases this
    omega
  · rw [if_neg hmem]
    have hcur : c ∈ keys current := h.resolve_left hmem
    have hsame : (current.rows.filter
        (fun a => (a.customer == c) && (findRow prior a.customer).isNone)).length =
        (current.rows.filter (fun a => a.customer == c)).length := by
      apply congrArg List.length
      apply List.filter_congr
      intro a _
      by_cases hac : a.customer = c
      · rw [hac, findRow_eq_none hmem]
        simp
      · simp [hac]
    rw [hsame, length_filter_key_table hc c, if_pos hcur]

theorem outer_merge_mem_eq {prior current : AggTable}
    (hp : uniqueKeys prior) (hc : uniqueKeys current) {r : PreRow}
    (hr : r ∈ outer_merge prior current) {c : String}
    (hcst : r.customer = some c) :
    r = ⟨some c, (findRow prior c).map (·.amount),
         (findRow current c).map (·.amount),
         (findRow prior c).map (·.profit),
         (findRow current c).map (·.profit)⟩ := by
  unfold outer_merge at hr
  rcases List.mem_append.mp hr with hl | hrr
  · rcases List.mem_map.mp hl with ⟨p, hpmem, rfl⟩
    have hpc : p.customer = c := by
      have := mergeLeftRow_customer current p
      rw [hcst] at this
      exact (Option.some_inj.mp this).symm
    subst hpc
    rw [findRow_eq_some hp hpmem]
    unfold mergeLeftRow
    cases hfr : findRow current p.customer <;> simp [hfr]
  · rcases List.mem_map.mp hrr with ⟨q, hqmem, rfl⟩
    rcases List.mem_filter.mp hqmem with ⟨hqrows, hqnone⟩
    have hqc : q.customer = c := by
      have : (mergeRightRow q).customer = some q.customer := rfl
      rw [hcst] at this
      exact (Option.some_inj.mp this).symm
    subst hqc
    rw [findRow_eq_some hc hqrows,
      Option.isNone_iff_eq_none.mp hqnone]
    rfl

theorem analyze_eq_some {prior current : AggTable}
    (hne : outer_merge prior current ≠ []) :
    analyze_sales_data prior current =
      some (List.insertionSort (fun a b => b.currentAmount ≤ a.currentAmount)
        (reconciledRows prior current)) := by
  unfold analyze_sales_data
  rw [if_neg (by simpa [List.isEmpty_iff] using hne)]

theorem mem_analyze_out {prior current : AggTable} {out : List MergedRow}
    (hout : analyze_sales_data prior current = some out) {r : MergedRow}
    (hr : r ∈ out) :
    ∃ x ∈ outer_merge prior current,
      r = roundRow (ratioNumericFlag prior current) (computeRow x) := by
  unfold analyze_sales_data at hout
  by_cases hemp : (outer_merge prior current).isEmpty
  · rw [if_pos hemp] at hout
    cases hout
  · rw [if_neg hemp] at hout
    injection hout with hout'
    subst hout'
    have hr' : r ∈ reconciledRows prior current :=
      (List.perm_insertionSort _ _).mem_iff.mp hr
    unfold reconciledRows at hr'
    rcases List.mem_map.mp hr' with ⟨m, hm, rfl⟩
    rcases List.mem_map.mp hm with ⟨x, hx, rfl⟩
    exact ⟨x, hx, rfl⟩

theorem analyze_out_filter_length {prior current : AggTable}
    {out : List MergedRow}
    (hout : analyze_sales_data prior current = some out) (c : String) :
    (out.filter (fun r => r.customer == some c)).length =
      ((outer_merge prior current).filter
        (fun r => r.customer == some c)).length := by
  unfold analyze_sales_data at hout
  by_cases hemp : (outer_merge prior current).isEmpty
  · rw [if_pos hemp] at hout
    cases hout
  · rw [if_neg hemp] at hout
    injection hout with hout'
    subst hout'
    rw [← List.countP_eq_length_filter,
      (List.perm_insertionSort _ _).countP_eq,
      List.countP_eq_length_filter]
    unfold reconciledRows
    rw [length_filter_map, length_filter_map]
    exact congrArg List.length (List.filter_congr (fun x _ => rfl))

theorem analyze_row_spec {prior current : AggTable}
    (hp : uniqueKeys prior) (hc : uniqueKeys current) {c : String}
    (h : c ∈ keys prior ∨ c ∈ keys current) :
    ∃ out, analyze_sales_data prior current = some out ∧
      (out.filter (fun r => r.customer == some c)).length = 1 ∧
      ∀ r ∈ out, r.customer = some c →
        r.priorAmount = (roundHalfEven (amountOf prior c) : ℚ) ∧
        r.currentAmount = (roundHalfEven (amountOf current c) : ℚ) ∧
        r.priorProfit = (roundHalfEven (profitOf prior c) : ℚ) ∧
        r.currentProfit = (roundHalfEven (profitOf current c) : ℚ) ∧
        r.delta = (roundHalfEven (amountOf current c - amountOf prior c) : ℚ) ∧
        r.ratio = (if amountOf prior c = 0 then .sentinel sentinelTag
          else if ratioNumericFlag prior current then
            .pct ((roundHalfEven
              ((amountOf current c - amountOf prior c) / amountOf prior c * 100) : ℚ))
          else
            .pct ((amountOf current c - amountOf prior c) / amountOf prior c * 100)) := by
  have hlen := outer_merge_filter_length hp hc h
  have hne : outer_merge prior current ≠ [] := by
    intro he
    rw [he] at hlen
    simp at hlen
  refine ⟨_, analyze_eq_some hne, ?_, ?_⟩
  · rw [analyze_out_filter_length (analyze_eq_some hne) c]
    exact hlen
  · intro r hr hcst
    rcases mem_analyze_out (analyze_eq_some hne) hr with ⟨x, hx, rfl⟩
    have hxc : x.customer = some c := hcst
    have hxeq := outer_merge_mem_eq hp hc hx hxc
    rw [hxeq]
    refine ⟨rfl, rfl, rfl, rfl, rfl, ?_⟩
    by_cases hz : amountOf prior c = 0
    · rw [if_pos hz]
      have hz' : ((findRow prior c).map (·.amount)).getD 0 = 0 := hz
      cases hb : ratioNumericFlag prior current <;>
        simp [roundRow, computeRow, hz']
    · rw [if_neg hz]
      have hz' : ¬((findRow prior c).map (·.amount)).getD 0 = 0 := hz
      cases hb : ratioNumericFlag prior current <;>
        simp [roundRow, computeRow, hz', amountOf]

theorem roundHalfEven_zero : roundHalfEven 0 = 0 := by
  norm_num [roundHalfEven]

theorem roundHalfEven_nearest (q : ℚ) :
    |(roundHalfEven q : ℚ) - q| ≤ 1 / 2 := by
  have h0 : (⌊q⌋ : ℚ) ≤ q := Int.floor_le q
  have h1 : q < (⌊q⌋ : ℚ) + 1 := Int.lt_floor_add_one q
  unfold roundHalfEven
  split_ifs with ha hb hc
  · rw [abs_le]
    constructor <;> push_cast <;> linarith
  · rw [abs_le]
    constructor <;> push_cast <;> linarith
  · have hr1 : 1 / 2 ≤ q - (⌊q⌋ : ℚ) := not_lt.mp ha
    have hr2 : q - (⌊q⌋ : ℚ) ≤ 1 / 2 := not_lt.mp hb
    rw [abs_le]
    constructor <;> push_cast <;> linarith
  · have hr1 : 1 / 2 ≤ q - (⌊q⌋ : ℚ) := not_lt.mp ha
    have hr2 : q - (⌊q⌋ : ℚ) ≤ 1 / 2 := not_lt.mp hb
    rw [abs_le]
    constructor <;> push_cast <;> linarith

theorem out_mem_of_merge {prior current : AggTable} {out : List MergedRow}
    (hout : analyze_sales_data prior current = some out) {x : PreRow}
    (hx : x ∈ outer_merge prior current) :
    roundRow (ratioNumericFlag prior current) (computeRow x) ∈ out := by
  unfold analyze_sales_data at hout
  by_cases hemp : (outer_merge prior current).isEmpty
  · rw [if_pos hemp] at hout
    cases hout
  · rw [if_neg hemp] at hout
    injection hout with hout'
    subst hout'
    refine (List.perm_insertionSort _ _).mem_iff.mpr ?_
    unfold reconciledRows
    exact List.mem_map_of_mem _ (List.mem_map_of_mem _ hx)

theorem computeRow_ratio_sentinel {x : PreRow}
    (h : (computeRow x).priorAmount = 0) :
    (computeRow x).ratio = .sentinel sentinelTag := by
  have h' : x.priorAmount.getD 0 = 0 := h
  simp [computeRow, h']

theorem out_no_sentinel_iff {prior current : AggTable} {out : List MergedRow}
    (hout : analyze_sales_data prior current = some out) :
    ratioNumericFlag prior current = true ↔
      ∀ r ∈ out, r.ratio ≠ .sentinel sentinelTag := by
  constructor
  · intro hflag r hr hsen
    rcases mem_analyze_out hout hr with ⟨x, hx, rfl⟩
    have hall := List.all_eq_true.mp hflag _
      (List.mem_map_of_mem computeRow hx)
    have hnz : ¬(computeRow x).priorAmount = 0 := by simpa using hall
    have hpct : (computeRow x).ratio =
        .pct ((computeRow x).delta / (computeRow x).priorAmount * 100) := by
      have h' : ¬x.priorAmount.getD 0 = 0 := hnz
      simp [computeRow, h']
    rw [hflag] at hsen
    rw [roundRow] at hsen
    simp only [hpct] at hsen
    cases hsen
  · intro hnos
    by_contra hflag
    have : ∃ m ∈ (outer_merge prior current).map computeRow,
        ¬(!(m.priorAmount == 0)) = true := by
      by_contra hno
      push_neg at hno
      exact hflag (List.all_eq_true.mpr hno)
    rcases this with ⟨m, hm, hmz⟩
    rcases List.mem_map.mp hm with ⟨x, hx, rfl⟩
    have hz : (computeRow x).priorAmount = 0 := by simpa using hmz
    have hin := out_mem_of_merge hout hx
    refine hnos _ hin ?_
    have hb : ratioNumericFlag prior current = false :=
      Bool.eq_false_iff.mpr hflag
    rw [hb, roundRow]
    simpa using computeRow_ratio_sentinel hz

/-! ## Claim theorems -/

/-- C1: for every pair of customer-aggregate tables, `analyze_sales_data`
produces exactly one output row for every customer appearing in either
input (full outer join on the customer key), and any numeric field missing
from one side — amount or profit — is filled with 0 in that row. -/
theorem claim1_outer_join_completeness (prior current : AggTable)
    (hp : uniqueKeys prior) (hc : uniqueKeys current) (c : String)
    (h : c ∈ keys prior ∨ c ∈ keys current) :
    ∃ out, analyze_sales_data prior current = some out ∧
      (out.filter (fun r => r.customer == some c)).length = 1 ∧
      ∀ r ∈ out, r.customer = some c →
        (c ∉ keys prior → r.priorAmount = 0 ∧ r.priorProfit = 0) ∧
        (c ∉ keys current → r.currentAmount = 0 ∧ r.currentProfit = 0) := by
  rcases analyze_row_spec hp hc h with ⟨out, hout, hlen, hrows⟩
  refine ⟨out, hout, hlen, ?_⟩
  intro r hr hcst
  rcases hrows r hr hcst with ⟨h1, h2, h3, h4, _, _⟩
  constructor
  · intro hnp
    have ha : amountOf prior c = 0 := by
      rw [amountOf, findRow_eq_none hnp]
      rfl
    have hpr : profitOf prior c = 0 := by
      rw [profitOf, findRow_eq_none hnp]
      rfl
    rw [h1, h3, ha, hpr, roundHalfEven_zero]
    simp
  · intro hnc
    have ha : amountOf current c = 0 := by
      rw [amountOf, findRow_eq_none hnc]
      rfl
    have hpr : profitOf current c = 0 := by
      rw [profitOf, findRow_eq_none hnc]
      rfl
    rw [h2, h4, ha, hpr, roundHalfEven_zero]
    simp

/-- C1 witness: the spec's worked example, at the current-only customer
`C`. -/
theorem claim1_witness :
    ∃ out, analyze_sales_data Pex Cex = some out ∧
      (out.filter (fun r => r.customer == some "C")).length = 1 ∧
      ∀ r ∈ out, r.customer = some "C" →
        ("C" ∉ keys Pex → r.priorAmount = 0 ∧ r.priorProfit = 0) ∧
        ("C" ∉ keys Cex → r.currentAmount = 0 ∧ r.currentProfit = 0) :=
  claim1_outer_join_completeness Pex Cex (by decide) (by decide) "C"
    (Or.inr (by decide))

/-- C2 as stated is false: on `prior = {A:3}`, `current = {A:4}` no row has a
zero prior amount, so the ratio column keeps a numeric dtype and line 123
rounds it — the produced ratio is `33`, not `delta / prior * 100 = 100/3`. -/
theorem claim2_counterexample :
    analyze_sales_data Pthird Cthird =
      some [⟨some "A", 3, 4, 0, 0, 1, .pct 33⟩] ∧
    ((4 : ℚ) - 3) / 3 * 100 ≠ 33 := by
  constructor
  · with_unfolding_all decide
  · norm_num

/-- C2 amended: the zero-base sentinel policy holds exactly as claimed — a
zero (pre-rounding) prior amount always yields the string sentinel, which is
distinct from every numeric percentage — and for a nonzero prior the ratio
is `delta / prior * 100`, except that when no row of the table has a zero
prior (the ratio column keeps a numeric dtype, `ratioNumericFlag`) the
percentage is additionally rounded half-to-even to an integer by the
rounding pass of lines 121-123. -/
theorem claim2_zero_base_sentinel (prior current : AggTable)
    (hp : uniqueKeys prior) (hc : uniqueKeys current) (c : String)
    (h : c ∈ keys prior ∨ c ∈ keys current) :
    ∃ out, analyze_sales_data prior current = some out ∧
      (∀ q : ℚ, RatioCell.sentinel sentinelTag ≠ RatioCell.pct q) ∧
      (ratioNumericFlag prior current = true ↔
        ∀ r ∈ out, r.ratio ≠ .sentinel sentinelTag) ∧
      ∀ r ∈ out, r.customer = some c →
        (amountOf prior c = 0 → r.ratio = .sentinel sentinelTag) ∧
        (amountOf prior c ≠ 0 →
          r.ratio = (if ratioNumericFlag prior current then
            RatioCell.pct ((roundHalfEven
              ((amountOf current c - amountOf prior c) /
                amountOf prior c * 100) : ℚ))
          else
            RatioCell.pct
              ((amountOf current c - amountOf prior c) /
                amountOf prior c * 100))) := by
  rcases analyze_row_spec hp hc h with ⟨out, hout, hlen, hrows⟩
  refine ⟨out, hout, ?_, out_no_sentinel_iff hout, ?_⟩
  · intro q hq
    cases hq
  intro r hr hcst
  have hratio := (hrows r hr hcst).2.2.2.2.2
  constructor
  · intro hz
    rw [hratio, if_pos hz]
  · intro hz
    rw [hratio, if_neg hz]

/-- C2 witness: the spec's worked example at customer `C`, which is new this
period, hence has a zero prior base and the sentinel ratio. -/
theorem claim2_witness :
    (∃ out, analyze_sales_data Pex Cex = some out ∧
      (∀ q : ℚ, RatioCell.sentinel sentinelTag ≠ RatioCell.pct q) ∧
      (ratioNumericFlag Pex Cex = true ↔
        ∀ r ∈ out, r.ratio ≠ .sentinel sentinelTag) ∧
      ∀ r ∈ out, r.customer = some "C" →
        (amountOf Pex "C" = 0 → r.ratio = .sentinel sentinelTag) ∧
        (amountOf Pex "C" ≠ 0 →
          r.ratio = (if ratioNumericFlag Pex Cex then
            RatioCell.pct ((roundHalfEven
              ((amountOf Cex "C" - amountOf Pex "C") /
                amountOf Pex "C" * 100) : ℚ))
          else
            RatioCell.pct
              ((amountOf Cex "C" - amountOf Pex "C") /
                amountOf Pex "C" * 100)))) ∧
    amountOf Pex "C" = 0 :=
  ⟨claim2_zero_base_sentinel Pex Cex (by decide) (by decide) "C"
    (Or.inr (by decide)), by with_unfolding_all decide⟩

/-- C4: for every reconciled row, the delta is the rounding of the exact
pre-rounding difference `current - prior` of the zero-filled aggregate
amounts (line 108 computes it before the rounding pass), and the prior and
current amount columns are rounded by the very same half-to-even rounding;
`roundHalfEven` always lands on a nearest integer. -/
theorem claim4_delta_exact_then_rounded (prior current : AggTable)
    (hp : uniqueKeys prior) (hc : uniqueKeys current) (c : String)
    (h : c ∈ keys prior ∨ c ∈ keys current) :
    ∃ out, analyze_sales_data prior current = some out ∧
      (∀ q : ℚ, |(roundHalfEven q : ℚ) - q| ≤ 1 / 2) ∧
      ∀ r ∈ out, r.customer = some c →
        r.delta =
          (roundHalfEven (amountOf current c - amountOf prior c) : ℚ) ∧
        r.priorAmount = (roundHalfEven (amountOf prior c) : ℚ) ∧
        r.currentAmount = (roundHalfEven (amountOf current c) : ℚ) ∧
        r.priorProfit = (roundHalfEven (profitOf prior c) : ℚ) ∧
        r.currentProfit = (roundHalfEven (profitOf current c) : ℚ) := by
  rcases analyze_row_spec hp hc h with ⟨out, hout, hlen, hrows⟩
  refine ⟨out, hout, roundHalfEven_nearest, ?_⟩
  intro r hr hcst
  rcases hrows r hr hcst with ⟨h1, h2, h3, h4, h5, _⟩
  exact ⟨h5, h1, h2, h3, h4⟩

/-- C4 witness: the spec's worked example at customer `A`. -/
theorem claim4_witness :
    ∃ out, analyze_sales_data Pex Cex = some out ∧
      (∀ q : ℚ, |(roundHalfEven q : ℚ) - q| ≤ 1 / 2) ∧
      ∀ r ∈ out, r.customer = some "A" →
        r.delta =
          (roundHalfEven (amountOf Cex "A" - amountOf Pex "A") : ℚ) ∧
        r.priorAmount = (roundHalfEven (amountOf Pex "A") : ℚ) ∧
        r.currentAmount = (roundHalfEven (amountOf Cex "A") : ℚ) ∧
        r.priorProfit = (roundHalfEven (profitOf Pex "A") : ℚ) ∧
        r.currentProfit = (roundHalfEven (profitOf Cex "A") : ℚ) :=
  claim4_delta_exact_then_rounded Pex Cex (by decide) (by decide) "A"
    (Or.inl (by decide))

/-- C5 as stated is false: the code guards the total ratio with
`売上金額_前年.sum() > 0` (line 208), not with `!= 0` — on a pair of tables
with negative amounts the prior total is `-1 ≠ 0`, yet the summary shows
the sentinel `計算不能` instead of the ratio `0`. -/
theorem claim5_counterexample :
    analyze_sales_data Pneg Cneg =
      some [⟨some "A", -1, -1, 0, 0, 0, .pct 0⟩] ∧
    summarize [⟨some "A", -1, -1, 0, 0, 0, .pct 0⟩] =
      ⟨-1, -1, 0, .sentinel summarySentinel⟩ ∧
    (-1 : ℚ) ≠ 0 := by
  have h1 : outer_merge Pneg Cneg =
      [⟨some "A", some (-1), some (-1), some 0, some 0⟩] := by
    with_unfolding_all decide
  have h2 : computeRow ⟨some "A", some (-1), some (-1), some 0, some 0⟩ =
      ⟨some "A", -1, -1, 0, 0, 0, .pct 0⟩ := by
    with_unfolding_all decide
  have h3 : ((-1 : ℚ) == 0) = false := by with_unfolding_all decide
  have h4 : roundRow true ⟨some "A", -1, -1, 0, 0, 0, .pct 0⟩ =
      ⟨some "A", -1, -1, 0, 0, 0, .pct 0⟩ := by
    with_unfolding_all decide
  have hsum : summarize [⟨some "A", -1, -1, 0, 0, 0, .pct 0⟩] =
      ⟨-1, -1, 0, .sentinel summarySentinel⟩ := by
    simp [summarize]
  refine ⟨?_, hsum, by norm_num⟩
  unfold analyze_sales_data reconciledRows ratioNumericFlag
  rw [h1]
  simp only [List.map_cons, List.map_nil, h2, List.all_cons, List.all_nil,
    h3, Bool.not_false, Bool.and_true, List.isEmpty_cons, h4,
    Bool.false_eq_true, if_false, List.insertionSort, List.orderedInsert]

/-- C5 amended: the four summary metrics are computed from the full
reconciled table, unchanged under any filter configuration, and the total
ratio is `totalDelta / priorTotal * 100` when `priorTotal > 0` and the
sentinel exactly when `priorTotal ≤ 0` (the code tests `> 0`, so a zero
*or negative* prior total yields the sentinel). -/
theorem claim5_summary_metrics (rows : List MergedRow)
    (cfg cfg' : FilterConfig) :
    (display_step rows cfg).2 = (display_step rows cfg').2 ∧
    (display_step rows cfg).2 = summarize rows ∧
    ((summarize rows).totalDeltaRatio = .sentinel summarySentinel ↔
      (summarize rows).priorTotal ≤ 0) ∧
    (0 < (summarize rows).priorTotal →
      (summarize rows).totalDeltaRatio =
        .pct ((summarize rows).totalDelta /
          (summarize rows).priorTotal * 100)) := by
  have hratio : (summarize rows).totalDeltaRatio =
      if 0 < (summarize rows).priorTotal then
        RatioCell.pct ((summarize rows).totalDelta /
          (summarize rows).priorTotal * 100)
      else .sentinel summarySentinel := rfl
  refine ⟨rfl, rfl, ?_, ?_⟩
  · rw [hratio]
    split_ifs with hlt
    · simp [not_le.mpr hlt]
    · simp [not_lt.mp hlt]
  · intro hlt
    rw [hratio, if_pos hlt]

/-- C5 witness: an empty reconciled table has a zero prior total, hence the
sentinel, under two different filter configurations. -/
theorem claim5_witness :
    (display_step [] ⟨0, 0, .all, ""⟩).2 =
      (display_step [] ⟨1, 1, .increaseOnly, "x"⟩).2 ∧
    (display_step [] ⟨0, 0, .all, ""⟩).2 = summarize [] ∧
    ((summarize ([] : List MergedRow)).totalDeltaRatio =
        .sentinel summarySentinel ↔
      (summarize ([] : List MergedRow)).priorTotal ≤ 0) ∧
    (0 < (summarize ([] : List MergedRow)).priorTotal →
      (summarize ([] : List MergedRow)).totalDeltaRatio =
        .pct ((summarize ([] : List MergedRow)).totalDelta /
          (summarize ([] : List MergedRow)).priorTotal * 100)) :=
  claim5_summary_metrics [] ⟨0, 0, .all, ""⟩ ⟨1, 1, .increaseOnly, "x"⟩

theorem filter_filter_eq (p q : MergedRow → Bool) (l : List MergedRow) :
    (l.filter p).filter q = l.filter (fun m => p m && q m) := by
  induction l with
  | nil => rfl
  | cons a t ih =>
    by_cases hp : p a <;> by_cases hq : q a <;>
      simp [List.filter_cons, hp, hq, ih]

theorem apply_filters_eq (cfg : FilterConfig) (rows : List MergedRow) :
    apply_filters cfg rows = rows.filter (fun m =>
      rangeMask cfg m && changeMask cfg.mode m &&
        (cfg.searchTerm.isEmpty || searchMask cfg.searchTerm m)) := by
  unfold apply_filters search_stage
  cases hmode : cfg.mode <;> by_cases hterm : cfg.searchTerm.isEmpty <;>
    simp only [hterm, if_true, if_false, filter_filter_eq] <;>
    · apply List.filter_congr
      intro m _
      simp [changeMask, hterm]

/-- C9: the filtering block equals a single filter by the conjunction of the
three predicates (range inclusive on the current amount, sign of the delta,
search guard) — so all active predicates hold simultaneously on every
surviving row and the source row order is preserved — and a configuration
whose predicates are all trivial (change mode `すべて表示`, empty search
term, range covering every row) returns the reconciled table unchanged.
`apply_filters` acts on an immutable value, matching the code's `.copy()`:
the source table is never modified. -/
theorem claim9_filter_conjunction (cfg : FilterConfig)
    (rows : List MergedRow) :
    apply_filters cfg rows = rows.filter (fun m =>
      rangeMask cfg m && changeMask cfg.mode m &&
        (cfg.searchTerm.isEmpty || searchMask cfg.searchTerm m)) ∧
    (cfg.mode = .all → cfg.searchTerm = "" →
      (∀ m ∈ rows, rangeMask cfg m = true) →
      apply_filters cfg rows = rows) := by
  refine ⟨apply_filters_eq cfg rows, ?_⟩
  intro hall hterm hrange
  rw [apply_filters_eq]
  apply List.filter_eq_self.mpr
  intro m hm
  have hemp : ("" : String).isEmpty = true := rfl
  simp [hall, hterm, changeMask, hrange m hm, hemp]

/-- C9 witness: the trivial configuration on a one-row table returns the
table unchanged. -/
theorem claim9_witness :
    apply_filters ⟨0, 0, .all, ""⟩ [rowABC] = [rowABC] :=
  (claim9_filter_conjunction ⟨0, 0, .all, ""⟩ [rowABC]).2 rfl rfl
    (fun m hm => by
      rw [List.mem_singleton.mp hm]
      with_unfolding_all decide)

theorem reMatchAt_eq_specPrefix {pat : List Char}
    (hall : pat.all (fun ch => !(ch == '.')) = true) :
    ∀ s, reMatchAt pat s = specPrefixMatch pat s := by
  induction pat with
  | nil => intro s; rfl
  | cons p ps ih =>
    rw [List.all_cons] at hall
    rcases (Bool.and_eq_true _ _).mp hall with ⟨hp, hps⟩
    intro s
    cases s with
    | nil => rfl
    | cons c cs =>
      have hpd : (p == '.') = false := by
        cases hpe : (p == '.')
        · rfl
        · rw [hpe] at hp
          cases hp
      simp [reMatchAt, specPrefixMatch, hpd, ih hps]

theorem reSearchList_eq_specContains {pat : List Char}
    (hall : pat.all (fun ch => !(ch == '.')) = true) :
    ∀ s, reSearchList pat s = specContains pat s := by
  intro s
  induction s with
  | nil =>
    show reMatchAt pat [] = specPrefixMatch pat []
    exact reMatchAt_eq_specPrefix hall []
  | cons c cs ih =>
    show (reMatchAt pat (c :: cs) || reSearchList pat cs) =
      (specPrefixMatch pat (c :: cs) || specContains pat cs)
    rw [reMatchAt_eq_specPrefix hall, ih]

/-- C8 as stated is false: `str.contains` defaults to `regex=True`, so the
search term is a regular-expression pattern, not a literal substring — the
term `a.c` keeps the row named `abc` (the `.` matches any character), while
the claimed case-insensitive substring predicate would drop it. -/
theorem claim8_counterexample :
    apply_filters cfgDotSearch [rowABC] = [rowABC] ∧
    claimSubstringFilter "a.c" [rowABC] = [] := by
  constructor
  · with_unfolding_all decide
  · with_unfolding_all decide

theorem literal_imp_dotfree {pat : List Char}
    (h : pat.all (fun ch => !isMetachar ch) = true) :
    pat.all (fun ch => !(ch == '.')) = true := by
  rw [List.all_eq_true] at h ⊢
  intro ch hch
  have hm := h ch hch
  by_cases hd : (ch == '.') = true
  · have hdot : ch = '.' := beq_iff_eq.mp hd
    rw [hdot] at hm
    have : isMetachar '.' = true := by decide
    rw [this] at hm
    cases hm
  · simp only [Bool.not_eq_true] at hd
    simp [hd]

/-- C8 amended: the search stage treats the term as a case-insensitive
regular expression (`str.contains(..., case=False, na=False)` with its
default `regex=True`): an empty or absent term keeps every row; within the
modelled pattern fragment (literal characters and the `.` wildcard) a row
with a missing customer name never matches a non-empty term (`na=False`);
and for every term free of *all* regex metacharacters the stage coincides
exactly with the claimed case-insensitive substring filter. -/
theorem claim8_search_is_regex (term : String) (rows : List MergedRow) :
    (term = "" → search_stage term rows = rows) ∧
    (term.toList.all (fun ch => ch == '.' || !isMetachar ch) = true →
      ∀ m ∈ rows, m.customer = none → term ≠ "" →
      m ∉ search_stage term rows) ∧
    (term.toList.all (fun ch => !isMetachar ch) = true →
      search_stage term rows = claimSubstringFilter term rows) := by
  refine ⟨?_, ?_, ?_⟩
  · intro h
    subst h
    rfl
  · intro hfrag m hm hnone hne hmem
    have hterm : term.isEmpty = false := by
      cases ht : term.isEmpty
      · rfl
      · exact absurd ((String.isEmpty_iff term).mp ht) hne
    rw [search_stage, if_neg (by simp [hterm])] at hmem
    have hmask := (List.mem_filter.mp hmem).2
    rw [searchMask, hnone] at hmask
    cases hmask
  · intro hall
    have hdot := literal_imp_dotfree hall
    unfold search_stage claimSubstringFilter
    by_cases ht : term.isEmpty
    · rw [if_pos ht, if_pos ht]
    · rw [if_neg ht, if_neg ht]
      apply List.filter_congr
      intro m _
      cases hcm : m.customer with
      | none => simp [searchMask, hcm]
      | some s =>
        simp only [searchMask, hcm, reSearch, specSubstring,
          reSearchList_eq_specContains hdot]

/-- C8 witness: a metacharacter-free term on a one-row table, where the
regex search stage agrees with the claimed substring filter. -/
theorem claim8_witness :
    search_stage "abc" [rowABC] = claimSubstringFilter "abc" [rowABC] :=
  (claim8_search_is_regex "abc" [rowABC]).2.2 (by decide)

theorem mkAgg_keys (hp : Bool) (parse : String → Option ℚ)
    (rows : List RawRow) :
    (mkAgg hp parse rows).rows.map (·.customer) = customersOf rows := by
  unfold mkAgg
  by_cases h1 : hp = true
  · rw [if_pos h1]
    by_cases h2 : (profitObjectDtype rows && profitCoercionRaises rows) = true
    · rw [if_pos h2, List.map_map]
      exact List.map_id _
    · rw [if_neg h2, List.map_map]
      exact List.map_id _
  · rw [if_neg h1, List.map_map]
    exact List.map_id _

theorem mkAgg_amounts (hp : Bool) (parse : String → Option ℚ)
    (rows : List RawRow) :
    (mkAgg hp parse rows).rows.map (fun r => (r.customer, r.amount)) =
      (customersOf rows).map (fun c => (c, groupSum rows (·.amount) c)) := by
  unfold mkAgg
  by_cases h1 : hp = true
  · rw [if_pos h1]
    by_cases h2 : (profitObjectDtype rows && profitCoercionRaises rows) = true
    · rw [if_pos h2, List.map_map]
      rfl
    · rw [if_neg h2, List.map_map]
      rfl
  · rw [if_neg h1, List.map_map]
    rfl

theorem mkAgg_hasProfit_true (parse : String → Option ℚ)
    (rows : List RawRow) :
    (mkAgg true parse rows).hasProfit =
      !(profitObjectDtype rows && profitCoercionRaises rows) := by
  unfold mkAgg
  rw [if_pos rfl]
  cases h2 : (profitObjectDtype rows && profitCoercionRaises rows) <;>
    simp [h2]

theorem process_ok (parse : String → Option ℚ) (df : RawTable)
    (h1 : df.hasCustomer = true) (h2 : df.hasAmount = true)
    (hnr : amountObjectDtype df.rows = true →
      amountCoercionRaises df.rows = false) :
    process_excel_data parse (.ok df) =
      some (mkAgg df.hasProfit parse (processedRows parse df.rows)) := by
  have hbody : process_body parse (.ok df) =
      .ok (mkAgg df.hasProfit parse (processedRows parse df.rows)) := by
    show (if (!(df.hasCustomer && df.hasAmount)) = true then
        BodyOutcome.returnedNone
      else
        if amountObjectDtype df.rows = true then
          if amountCoercionRaises df.rows = true then .returnedNone
          else .ok (mkAgg df.hasProfit parse (processedRows parse df.rows))
        else .ok (mkAgg df.hasProfit parse (processedRows parse df.rows))) =
      .ok (mkAgg df.hasProfit parse (processedRows parse df.rows))
    rw [h1, h2]
    rw [if_neg (by simp)]
    by_cases hobj : amountObjectDtype df.rows = true
    · rw [if_pos hobj, if_neg (by simp [hnr hobj])]
    · rw [if_neg hobj]
  unfold process_excel_data
  rw [hbody]

/-- C6 as stated is false: the per-cell coercion and the
`dropna(subset=['受注額'])` of lines 63-70 run only when the amount column
has `object` dtype; a column that is already numeric but contains a missing
value keeps that row — the customer `A`, whose only record has a null
amount, still appears in the aggregate (with total 0 from `skipna`
summation) instead of being excluded. -/
theorem claim6_counterexample :
    process_excel_data parseNone (.ok TnanAmount) =
      some ⟨false, [⟨"A", 0, 0⟩]⟩ ∧
    TnanAmount.rows.all (fun r => !r.amount.isNum) = true := by
  constructor
  · with_unfolding_all decide
  · with_unfolding_all decide

/-- C6 amended: the row-drop invariant holds only on the object-dtype path —
when the amount column contains a text cell (and no non-scalar cell), every
aggregated customer is backed by at least one record whose amount coerced to
an actual number; but when the amount column is already numeric, no row is
dropped at all: every record's customer, a null amount included, appears in
the aggregate. -/
theorem claim6_amount_coercion (parse : String → Option ℚ) (df : RawTable)
    (h1 : df.hasCustomer = true) (h2 : df.hasAmount = true) :
    (amountObjectDtype df.rows = true →
      amountCoercionRaises df.rows = false →
      ∀ t, process_excel_data parse (.ok df) = some t →
        ∀ r ∈ t.rows, ∃ raw ∈ df.rows, raw.customer = r.customer ∧
          (coerceCell parse raw.amount).isNum = true) ∧
    (amountObjectDtype df.rows = false →
      ∃ t, process_excel_data parse (.ok df) = some t ∧
        ∀ raw ∈ df.rows, ∃ r ∈ t.rows, r.customer = raw.customer) := by
  constructor
  · intro hobj hnorm t ht r hr
    rw [process_ok parse df h1 h2 (fun _ => hnorm)] at ht
    injection ht with ht'
    subst ht'
    have hkey : r.customer ∈ customersOf (processedRows parse df.rows) := by
      rw [← mkAgg_keys df.hasProfit parse (processedRows parse df.rows)]
      exact List.mem_map_of_mem _ hr
    rw [customersOf] at hkey
    rcases List.mem_map.mp (List.mem_dedup.mp hkey) with ⟨row, hrow, hrc⟩
    rw [processedRows, if_pos hobj] at hrow
    rcases List.mem_filter.mp hrow with ⟨hrow2, hnan⟩
    rcases List.mem_map.mp hrow2 with ⟨raw, hraw, hraweq⟩
    refine ⟨raw, hraw, ?_, ?_⟩
    · rw [← hrc, ← hraweq]
    · have hnonan : (coerceCell parse raw.amount).isNan = false := by
        have hre : row.amount = coerceCell parse raw.amount := by
          rw [← hraweq]
        rw [← hre]
        exact (Bool.not_eq_true' _).mp hnan
      have hnoobj : raw.amount.isObj = false := by
        cases hio : raw.amount.isObj
        · rfl
        · have : amountCoercionRaises df.rows = true :=
            List.any_eq_true.mpr ⟨raw, hraw, hio⟩
          rw [hnorm] at this
          cases this
      cases hcell : raw.amount with
      | num q => simp [coerceCell, RawCell.isNum]
      | nan =>
        rw [hcell] at hnonan
        simp [coerceCell, RawCell.isNan] at hnonan
      | str s =>
        cases hp : parse s with
        | some q => simp [coerceCell, hp, RawCell.isNum]
        | none =>
          rw [hcell] at hnonan
          simp [coerceCell, hp, RawCell.isNan] at hnonan
      | obj =>
        rw [hcell] at hnoobj
        simp [RawCell.isObj] at hnoobj
  · intro hobj
    refine ⟨_, process_ok parse df h1 h2
      (fun habs => by rw [hobj] at habs; cases habs), ?_⟩
    intro raw hraw
    have hkey : raw.customer ∈ customersOf (processedRows parse df.rows) := by
      rw [processedRows, if_neg (by simp [hobj])]
      exact List.mem_dedup.mpr (List.mem_map_of_mem _ hraw)
    rw [← mkAgg_keys df.hasProfit parse (processedRows parse df.rows)] at hkey
    rcases List.mem_map.mp hkey with ⟨r, hrmem, hrc⟩
    exact ⟨r, hrmem, hrc⟩

/-- C6 witness: the amended policy instantiated at the sheet whose numeric
amount column holds a null. -/
theorem claim6_witness :
    (amountObjectDtype TnanAmount.rows = true →
      amountCoercionRaises TnanAmount.rows = false →
      ∀ t, process_excel_data parseNone (.ok TnanAmount) = some t →
        ∀ r ∈ t.rows, ∃ raw ∈ TnanAmount.rows,
          raw.customer = r.customer ∧
          (coerceCell parseNone raw.amount).isNum = true) ∧
    (amountObjectDtype TnanAmount.rows = false →
      ∃ t, process_excel_data parseNone (.ok TnanAmount) = some t ∧
        ∀ raw ∈ TnanAmount.rows, ∃ r ∈ t.rows,
          r.customer = raw.customer) :=
  claim6_amount_coercion parseNone TnanAmount rfl rfl

theorem raises_imp_objectDtype {rows : List RawRow}
    (h : profitCoercionRaises rows = true) :
    profitObjectDtype rows = true := by
  rcases List.any_eq_true.mp h with ⟨r, hr, hobj⟩
  refine List.any_eq_true.mpr ⟨r, hr, ?_⟩
  cases hcell : r.profit <;> rw [hcell] at hobj <;>
    simp_all [RawCell.isObj, RawCell.isStrLike]

/-- C7: the gross-profit policy is column-level — when the whole-column
coercion of the profit column raises (a non-scalar cell), the produced
aggregate has no profit column at all (`hasProfit = false`), and otherwise
it keeps one; either way the customer/amount part of the aggregate is
exactly what the same sheet without a profit column produces, so the
`order_amount` aggregation is unaffected and no row is dropped on account
of profit cells. -/
theorem claim7_profit_policy (parse : String → Option ℚ) (df : RawTable)
    (h1 : df.hasCustomer = true) (h2 : df.hasAmount = true)
    (h3 : df.hasProfit = true)
    (hok : amountObjectDtype df.rows = true →
      amountCoercionRaises df.rows = false) :
    ∃ t t', process_excel_data parse (.ok df) = some t ∧
      process_excel_data parse
        (.ok ⟨df.hasCustomer, df.hasAmount, false, df.rows⟩) = some t' ∧
      (t.hasProfit = false ↔
        profitCoercionRaises (processedRows parse df.rows) = true) ∧
      t.rows.map (fun r => (r.customer, r.amount)) =
        t'.rows.map (fun r => (r.customer, r.amount)) := by
  refine ⟨_, _, process_ok parse df h1 h2 hok,
    process_ok parse ⟨df.hasCustomer, df.hasAmount, false, df.rows⟩ h1 h2 hok,
    ?_, ?_⟩
  · rw [h3, mkAgg_hasProfit_true]
    constructor
    · intro hfa
      have hx : (profitObjectDtype (processedRows parse df.rows) &&
          profitCoercionRaises (processedRows parse df.rows)) = true := by
        cases hx2 : (profitObjectDtype (processedRows parse df.rows) &&
            profitCoercionRaises (processedRows parse df.rows))
        · rw [hx2] at hfa
          cases hfa
        · rfl
      exact ((Bool.and_eq_true _ _).mp hx).2
    · intro hra
      simp [hra, raises_imp_objectDtype hra]
  · rw [mkAgg_amounts, mkAgg_amounts]

/-- C7 witness: a sheet whose profit column holds a non-scalar cell. -/
theorem claim7_witness :
    ∃ t t', process_excel_data parseNone (.ok TobjProfit) = some t ∧
      process_excel_data parseNone
        (.ok ⟨TobjProfit.hasCustomer, TobjProfit.hasAmount, false,
          TobjProfit.rows⟩) = some t' ∧
      (t.hasProfit = false ↔
        profitCoercionRaises (processedRows parseNone TobjProfit.rows) =
          true) ∧
      t.rows.map (fun r => (r.customer, r.amount)) =
        t'.rows.map (fun r => (r.customer, r.amount)) :=
  claim7_profit_policy parseNone TobjProfit rfl rfl rfl
    (fun habs => absurd habs (by decide))

/-- C10: ingestion is total into an option — a raised upstream parse error
(`pd.read_excel` failing) yields `None`, any body outcome that is not a
produced table yields `None`, and `None` is returned exactly when the body
does not produce a table: no exception ever escapes `process_excel_data`. -/
theorem claim10_ingestion_total (parse : String → Option ℚ) :
    (∀ msg, process_excel_data parse (Except.error msg) = none) ∧
    (∀ input, process_body parse input = .raised →
      process_excel_data parse input = none) ∧
    (∀ input, process_excel_data parse input = none ↔
      ∀ t, process_body parse input ≠ .ok t) := by
  refine ⟨fun msg => rfl, ?_, ?_⟩
  · intro input h
    unfold process_excel_data
    rw [h]
  · intro input
    constructor
    · intro hnone t hok
      unfold process_excel_data at hnone
      rw [hok] at hnone
      cases hnone
    · intro hno
      unfold process_excel_data
      cases hbody : process_body parse input with
      | ok t => exact absurd hbody (hno t)
      | returnedNone => rfl
      | raised => rfl

/-- C10 witness: a failing file read produces no aggregate. -/
theorem claim10_witness :
    process_excel_data parseNone (Except.error "read failure") = none :=
  (claim10_ingestion_total parseNone).1 "read failure"

end SalesApp
